import Mathlib

/-!
# SBBasis / SBTypes.h

`Sources/SBTypes.h` is a header of six typedefs and nothing else:

    typedef float       SBShortReal;
    typedef double      SBReal;
    typedef long double SBLongReal;

    typedef unsigned int SBIndex;
    typedef int64_t SBInteger;

    typedef double (SBRealFunc) (double);

The embedding below has two layers.

* The typedefs themselves, as definitions naming a C type (`SBIndex`,
  `SBInteger`, `SBRealFunc`, ...).  These are the translation of the source.
* The meaning C gives to the types the typedefs name: the width and
  signedness of the integer types, the object representation of an integer,
  conversion on assignment, arithmetic, the classification of types into
  object, function and pointer types, and the formats of the real floating
  types.  What the C standard leaves to the implementation is a parameter: the
  width of `unsigned int` is a field of `Target`, the format of `long double`
  a field of `RealTarget`.

Every theorem is stated about the typedef names, so it changes or fails when a
typedef line changes.
-/

namespace SBBasis

/-! ## C types named by the header -/

/-- Integer types that occur in the header. -/
inductive IntType where
  | unsignedInt
  | int64_t
deriving DecidableEq, Repr

/-- Real floating types that occur in the header. -/
inductive RealType where
  | float
  | double
  | longDouble
deriving DecidableEq, Repr

/-- Arithmetic types: the integer and the real floating types. -/
inductive ArithType where
  | integer (t : IntType)
  | real (t : RealType)
deriving DecidableEq, Repr

/-- The fragment of C's types the header needs: arithmetic types, the type of
a function that takes one arithmetic parameter and returns an arithmetic
value, and pointers. -/
inductive CType where
  | arith (t : ArithType)
  | function (ret : ArithType) (param : ArithType)
  | pointer (pointee : CType)
deriving DecidableEq, Repr

/-! ## The typedefs (SBTypes.h, lines 13-20) -/

/-- Line 14: `typedef double SBReal;` -/
def SBReal : RealType := RealType.double

/-- Line 15: `typedef long double SBLongReal;` -/
def SBLongReal : RealType := RealType.longDouble

/-- Line 17: `typedef unsigned int SBIndex;` -/
def SBIndex : IntType := IntType.unsignedInt

/-- Line 18: `typedef int64_t SBInteger;` -/
def SBInteger : IntType := IntType.int64_t

/-- Line 20: `typedef double (SBRealFunc) (double);`.  The parentheses around
the name hold no `*`: the declarator is that of a function, so the alias names
the function type `double (double)`. -/
def SBRealFunc : CType :=
  CType.function (ArithType.real RealType.double) (ArithType.real RealType.double)

/-! ## What the implementation chooses -/

/-- The implementation-defined quantity the header depends on: the width of
`unsigned int`.  C requires `UINT_MAX ≥ 65535`, that is at least 16 bits. -/
structure Target where
  uintBits : Nat
  uintBits_ge : 16 ≤ uintBits

/-- A target whose `int` has 16 bits (AVR, MSP430, 16-bit x86 compilers). -/
def Target.int16 : Target := ⟨16, by decide⟩

/-- A target whose `int` has 32 bits (ILP32, LP64 and LLP64 data models). -/
def Target.int32 : Target := ⟨32, by decide⟩

/-! ## Integer types: width, limits, representation, conversion -/

/-- Width in bits.  `int64_t` has exactly 64 bits and no padding
(`<stdint.h>`); `unsigned int` has the width the target gives it. -/
def IntType.bits (T : Target) : IntType → Nat
  | IntType.unsignedInt => T.uintBits
  | IntType.int64_t => 64

/-- Signedness. -/
def IntType.isSigned : IntType → Bool
  | IntType.unsignedInt => false
  | IntType.int64_t => true

/-- Least value (`0`, `INT64_MIN`). -/
def IntType.minVal (T : Target) (t : IntType) : Int :=
  if t.isSigned then -(2 ^ (t.bits T - 1)) else 0

/-- Greatest value (`UINT_MAX`, `INT64_MAX`). -/
def IntType.maxVal (T : Target) (t : IntType) : Int :=
  if t.isSigned then 2 ^ (t.bits T - 1) - 1 else 2 ^ t.bits T - 1

/-- The number lies within the limits of the type. -/
def IntType.InRange (T : Target) (t : IntType) (n : Int) : Prop :=
  t.minVal T ≤ n ∧ n ≤ t.maxVal T

instance IntType.decidableInRange (T : Target) (t : IntType) (n : Int) :
    Decidable (t.InRange T n) := by
  unfold IntType.InRange
  exact inferInstance

/-- Object representation of a number stored in an object of the type: the
`bits`-bit pattern, read as a natural number.  Unsigned types reduce modulo
`2 ^ bits`; `int64_t` is two's complement, which is the same reduction. -/
def IntType.encode (T : Target) (t : IntType) (n : Int) : Nat :=
  (n % 2 ^ t.bits T).toNat

/-- Value read from a bit pattern: the pattern itself for an unsigned type, the
two's complement reading for a signed one. -/
def IntType.decode (T : Target) (t : IntType) (b : Nat) : Int :=
  if t.isSigned && decide (2 ^ (t.bits T - 1) ≤ b) then (b : Int) - 2 ^ t.bits T
  else (b : Int)

/-- Conversion on assignment: store the number in an object of the type and
read the object back. -/
def IntType.convert (T : Target) (t : IntType) (n : Int) : Int :=
  t.decode T (t.encode T n)

/-- The values of the type: what the bit patterns of its width read as. -/
def IntType.IsValue (T : Target) (t : IntType) (v : Int) : Prop :=
  ∃ b : Nat, b < 2 ^ t.bits T ∧ t.decode T b = v

/-! ## Integer arithmetic -/

/-- The binary operators the index contract speaks of. -/
inductive BinOp where
  | add
  | sub
  | mul
deriving DecidableEq, Repr

/-- The mathematical result of an operator. -/
def BinOp.eval : BinOp → Int → Int → Int
  | BinOp.add, a, b => a + b
  | BinOp.sub, a, b => a - b
  | BinOp.mul, a, b => a * b

/-- Arithmetic on two operands of one integer type whose rank is not below
that of `int` (so no integer promotion applies, which covers `unsigned int`
and `int64_t`).  A result that an unsigned type cannot represent is reduced
modulo one more than its greatest value; a result that a signed type cannot
represent is undefined behaviour, `none`. -/
def IntType.arith (T : Target) (t : IntType) (op : BinOp) (a b : Int) : Option Int :=
  if t.isSigned then
    if t.InRange T (op.eval a b) then some (op.eval a b) else none
  else some (t.convert T (op.eval a b))


/-! ## Kinds of type, declarations and calls -/

/-- Arithmetic types. -/
def CType.isArithmetic : CType → Bool
  | CType.arith _ => true
  | _ => false

/-- Function types, as opposed to object types. -/
def CType.isFunctionType : CType → Bool
  | CType.function _ _ => true
  | _ => false

/-- Object types: every type that is not a function type. -/
def CType.isObjectType (t : CType) : Bool :=
  !t.isFunctionType

/-- Pointers to functions. -/
def CType.isFunctionPointer : CType → Bool
  | CType.pointer (CType.function _ _) => true
  | _ => false

/-- Adjustment of a declared parameter type: a parameter declared with a
function type has the type pointer to that function type. -/
def CType.adjustParameter : CType → CType
  | CType.function r p => CType.pointer (CType.function r p)
  | t => t

/-- Function-to-pointer conversion of an expression: an expression of function
type becomes a pointer to the function. -/
def CType.decay : CType → CType
  | CType.function r p => CType.pointer (CType.function r p)
  | t => t

/-- Places where a declaration with a type introduces something that holds a
value: a variable, a structure member, a function parameter. -/
inductive DeclKind where
  | var
  | member
  | param
deriving DecidableEq, Repr

/-- The type of the object that a declaration of the given kind with the
declared type `t` introduces.  A parameter has the adjusted type.  A variable
or member has the type `t`, which has to be an object type: with a function
type no object is declared (`none`; as a member it is a constraint violation,
at file or block scope the declaration is that of a function). -/
def CType.declared (k : DeclKind) (t : CType) : Option CType :=
  match k with
  | DeclKind.param => some t.adjustParameter
  | _ => if t.isObjectType then some t else none

/-- Type of the call `e(a)` where `e` has type `callee` and `a` has type `arg`.
After function-to-pointer conversion the callee has to be a pointer to
function.  The argument is converted, as if by assignment, to the type of the
parameter, which in this fragment is arithmetic, so the argument has to be of
arithmetic type.  The call then has the return type.  Anything else violates a
constraint, `none`. -/
def CType.callResult (callee arg : CType) : Option CType :=
  match callee.decay with
  | CType.pointer (CType.function r _) =>
      if arg.isArithmetic then some (CType.arith r) else none
  | _ => none

/-! ## Real floating types: storage -/

/-- A floating datum by its three fields: sign bit, biased exponent field,
trailing significand field. -/
structure Datum where
  sign : Bool
  exponent : Nat
  fraction : Nat
deriving DecidableEq, Repr

/-- An IEC 60559 binary interchange format, by the widths of the exponent and
trailing significand fields. -/
structure Interchange where
  expBits : Nat
  fracBits : Nat
deriving DecidableEq, Repr

/-- Single precision. -/
def Interchange.binary32 : Interchange := ⟨8, 23⟩

/-- Double precision. -/
def Interchange.binary64 : Interchange := ⟨11, 52⟩

/-- Width of the format in bits. -/
def Interchange.width (I : Interchange) : Nat :=
  1 + I.expBits + I.fracBits

/-- The fields of the datum fit the widths of the format. -/
def Interchange.WellFormed (I : Interchange) (d : Datum) : Prop :=
  d.exponent < 2 ^ I.expBits ∧ d.fraction < 2 ^ I.fracBits

instance Interchange.decidableWellFormed (I : Interchange) (d : Datum) :
    Decidable (I.WellFormed d) := by
  unfold Interchange.WellFormed
  exact inferInstance

/-- Bit pattern of a datum: sign, exponent, trailing significand, from the most
significant bit down. -/
def Interchange.encode (I : Interchange) (d : Datum) : Nat :=
  (if d.sign then 2 ^ (I.expBits + I.fracBits) else 0) + d.exponent * 2 ^ I.fracBits
    + d.fraction

/-- Datum read from a bit pattern. -/
def Interchange.decode (I : Interchange) (b : Nat) : Datum :=
  ⟨decide (b / 2 ^ (I.expBits + I.fracBits) % 2 = 1), b / 2 ^ I.fracBits % 2 ^ I.expBits,
    b % 2 ^ I.fracBits⟩

/-- Exponent bias. -/
def Interchange.bias (I : Interchange) : Int :=
  2 ^ (I.expBits - 1) - 1

/-- Exact value of a datum: `none` for an infinity or a NaN (exponent field all
ones); `± fraction * 2^(1 - bias - fracBits)` for a zero or a subnormal
(exponent field zero); `± (2^fracBits + fraction) * 2^(exponent - bias -
fracBits)` for a normal number. -/
def Interchange.value (I : Interchange) (d : Datum) : Option ℚ :=
  if d.exponent = 2 ^ I.expBits - 1 then none
  else if d.exponent = 0 then
    some ((if d.sign then -1 else 1) * ((d.fraction : ℚ) * 2 ^ (1 - I.bias - (I.fracBits : Int))))
  else
    some ((if d.sign then -1 else 1)
      * ((2 ^ I.fracBits + d.fraction : ℚ)
          * 2 ^ ((d.exponent : Int) - I.bias - (I.fracBits : Int))))

/-- The double `3.5 = 1.75 * 2^1`: exponent field `1024`, fraction `0.75 * 2^52`. -/
def Datum.threeAndHalf : Datum := ⟨false, 1024, 3 * 2 ^ 50⟩

/-- C's model of a floating type with radix 2 (`<float.h>`): the precision
`MANT_DIG` and the exponent range `MIN_EXP .. MAX_EXP`.  The finite numbers of
the type are `± M * 2^(e - MANT_DIG)` with `M < 2^MANT_DIG` and
`MIN_EXP ≤ e ≤ MAX_EXP`. -/
structure FloatModel where
  mantDig : Nat
  minExp : Int
  maxExp : Int
deriving DecidableEq, Repr

/-- The model of an interchange format: one implicit bit more than the
trailing significand, `MAX_EXP = bias + 1`, `MIN_EXP = 2 - bias`. -/
def Interchange.model (I : Interchange) : FloatModel :=
  ⟨I.fracBits + 1, 2 - I.bias, I.bias + 1⟩

/-- A value of a real floating type: a finite number, the negative zero, an
infinity, or a NaN. -/
inductive RealValue where
  | finite (x : ℚ)
  | negZero
  | infinite (negative : Bool)
  | nan
deriving DecidableEq

/-- The number is one of the finite numbers of the model.  Both quantifiers
are bounded, which makes the property decidable. -/
def FloatModel.Represents (F : FloatModel) (x : ℚ) : Prop :=
  ∃ M ∈ Finset.range (2 ^ F.mantDig), ∃ e ∈ Finset.Icc F.minExp F.maxExp,
    x = (M : ℚ) * 2 ^ (e - (F.mantDig : Int)) ∨ x = -((M : ℚ) * 2 ^ (e - (F.mantDig : Int)))

instance FloatModel.decidableRepresents (F : FloatModel) (x : ℚ) :
    Decidable (F.Represents x) := by
  unfold FloatModel.Represents
  exact inferInstance

/-- The values of a type with the given model: its finite numbers, and, the
types being IEC 60559 ones, the negative zero, the infinities and NaN. -/
def FloatModel.IsValue (F : FloatModel) : RealValue → Prop
  | RealValue.finite x => F.Represents x
  | _ => True

instance FloatModel.decidableIsValue (F : FloatModel) (v : RealValue) :
    Decidable (F.IsValue v) := by
  cases v <;> unfold FloatModel.IsValue <;> exact inferInstance

/-- What the implementation chooses for the real floating types: the model of
`long double`, which C requires to contain the values of `double` (precision
and exponent range at least those of `double`), and the result of a
conversion whose operand the new type cannot represent exactly (a neighbouring
value chosen by the implementation, or undefined when out of range). -/
structure RealTarget where
  longDouble : FloatModel
  mantDig_ge : 53 ≤ longDouble.mantDig
  minExp_le : longDouble.minExp ≤ -1021
  maxExp_ge : 1024 ≤ longDouble.maxExp
  inexact : RealType → RealValue → RealValue

/-- Model of a real type: `float` and `double` have the models of the single
and double formats, `long double` the target's. -/
def RealType.model (R : RealTarget) : RealType → FloatModel
  | RealType.float => Interchange.binary32.model
  | RealType.double => Interchange.binary64.model
  | RealType.longDouble => R.longDouble

/-- A target whose `long double` is the x87 80-bit extended format. -/
def RealTarget.x87 : RealTarget :=
  ⟨⟨64, -16381, 16384⟩, by decide, by decide, by decide, fun _ v => v⟩

/-- A target whose `long double` is the same as `double`. -/
def RealTarget.sameAsDouble : RealTarget :=
  ⟨Interchange.binary64.model, by decide, by decide, by decide, fun _ v => v⟩

/-- The values of a real type. -/
def RealType.IsValue (R : RealTarget) (t : RealType) (v : RealValue) : Prop :=
  (t.model R).IsValue v

/-- Conversion of a value to a real type: a value the type represents exactly
is unchanged; otherwise the result is the implementation's. -/
def RealType.convert (R : RealTarget) (t : RealType) (v : RealValue) : RealValue :=
  if (t.model R).IsValue v then v else R.inexact t v

/-! ## Functions on doubles -/

/-- A function defined with the signature `double f(double x)`, by what it
computes on binary64 data. -/
structure RealFunction where
  body : Datum → Datum

/-- The C type of a function definition `double f(double)`. -/
def RealFunction.type (_f : RealFunction) : CType :=
  CType.function (ArithType.real RealType.double) (ArithType.real RealType.double)

theorem two_pow_pos_int (k : Nat) : (0 : Int) < 2 ^ k := by positivity

theorem encode_eq (T : Target) (t : IntType) (n : Int) :
    (t.encode T n : Int) = n % 2 ^ t.bits T := by
  unfold IntType.encode
  exact Int.toNat_of_nonneg (Int.emod_nonneg _ (ne_of_gt (two_pow_pos_int _)))

theorem encode_lt (T : Target) (t : IntType) (n : Int) :
    t.encode T n < 2 ^ t.bits T := by
  have h := Int.emod_lt_of_pos n (two_pow_pos_int (t.bits T))
  rw [← encode_eq] at h
  exact_mod_cast h

/-- The width of `SBIndex` is the target's width of `unsigned int`. -/
theorem bits_SBIndex (T : Target) : IntType.bits T SBIndex = T.uintBits := rfl

/-- An `SBIndex` bit pattern reads as itself. -/
theorem decode_SBIndex (T : Target) (b : Nat) : IntType.decode T SBIndex b = (b : Int) := by
  simp [IntType.decode, SBIndex, IntType.isSigned]

/-- Conversion to `SBIndex` is reduction modulo `2 ^ uintBits`. -/
theorem convert_SBIndex (T : Target) (n : Int) :
    IntType.convert T SBIndex n = n % 2 ^ T.uintBits := by
  simp [IntType.convert, IntType.decode, SBIndex, IntType.isSigned, encode_eq, IntType.bits]

/-- Conversion to `SBInteger` wraps into `-2^63 .. 2^63 - 1`. -/
theorem convert_SBInteger (T : Target) (n : Int) :
    IntType.convert T SBInteger n = (n + 2 ^ 63) % 2 ^ 64 - 2 ^ 63 := by
  have h := encode_eq T SBInteger n
  simp only [IntType.convert, IntType.decode, SBInteger, IntType.isSigned, IntType.bits,
    Bool.true_and] at *
  norm_num at *
  split <;> omega

/-- The values of `SBIndex` are the numbers `0 .. 2 ^ uintBits - 1`. -/
theorem isValue_SBIndex_iff (T : Target) (v : Int) :
    IntType.IsValue T SBIndex v ↔ 0 ≤ v ∧ v < 2 ^ T.uintBits := by
  simp only [IntType.IsValue, decode_SBIndex, bits_SBIndex]
  constructor
  · rintro ⟨b, hb, rfl⟩
    exact ⟨Int.natCast_nonneg b, by exact_mod_cast hb⟩
  · rintro ⟨h0, h1⟩
    refine ⟨v.toNat, ?_, ?_⟩
    · have h2 : ((v.toNat : Nat) : Int) < ((2 ^ T.uintBits : Nat) : Int) := by
        rw [Int.toNat_of_nonneg h0]
        exact_mod_cast h1
      exact_mod_cast h2
    · simpa using h0

/-- The values of `SBInteger` are the numbers `-2^63 .. 2^63 - 1`. -/
theorem isValue_SBInteger_iff (T : Target) (v : Int) :
    IntType.IsValue T SBInteger v ↔ -2 ^ 63 ≤ v ∧ v ≤ 2 ^ 63 - 1 := by
  simp only [IntType.IsValue, IntType.decode, SBInteger, IntType.isSigned, IntType.bits,
    Bool.true_and]
  norm_num
  constructor
  · rintro ⟨b, hb, rfl⟩
    split <;> omega
  · rintro ⟨h0, h1⟩
    by_cases hv : 0 ≤ v
    · refine ⟨v.toNat, by omega, ?_⟩
      rw [if_neg (by omega)]
      omega
    · refine ⟨(v + 18446744073709551616).toNat, by omega, ?_⟩
      rw [if_pos (by omega)]
      omega

/-! ## SBInteger -/

/-- C1: `SBInteger` represents the signed 64-bit range exactly.  For `n`, `m`
in `-2^63 .. 2^63 - 1`: storing `n` in an `SBInteger` and reading it back
yields `n`; the stored pattern fits in 64 bits; `n` is an `SBInteger` value;
two in-range numbers with the same stored pattern are equal.  And every
64-bit pattern `b` reads as a number in `-2^63 .. 2^63 - 1`, so no `SBInteger`
value lies outside the range. -/
theorem SBInteger_represents_int64_range (T : Target) (n m : Int) (b : Nat)
    (hn : -2 ^ 63 ≤ n ∧ n ≤ 2 ^ 63 - 1) (hm : -2 ^ 63 ≤ m ∧ m ≤ 2 ^ 63 - 1)
    (hb : b < 2 ^ 64) :
    IntType.convert T SBInteger n = n
      ∧ IntType.encode T SBInteger n < 2 ^ 64
      ∧ IntType.IsValue T SBInteger n
      ∧ (IntType.encode T SBInteger n = IntType.encode T SBInteger m → n = m)
      ∧ (-2 ^ 63 ≤ IntType.decode T SBInteger b ∧ IntType.decode T SBInteger b ≤ 2 ^ 63 - 1) := by
  refine ⟨?_, encode_lt T SBInteger n, (isValue_SBInteger_iff T n).2 hn, ?_,
    (isValue_SBInteger_iff T _).1 ⟨b, hb, rfl⟩⟩
  · rw [convert_SBInteger]
    norm_num at hn ⊢
    omega
  · intro h
    have h1 := encode_eq T SBInteger n
    have h2 := encode_eq T SBInteger m
    rw [h, h2] at h1
    have h3 : IntType.bits T SBInteger = 64 := rfl
    rw [h3] at h1
    norm_num at hn hm h1
    omega

/-- C1 at the two ends of the range: `INT64_MIN` and `INT64_MAX` are stored and
read back unchanged, and the all-ones pattern reads as a number in range. -/
theorem SBInteger_represents_int64_range_witness :
    ((-2 ^ 63 : Int) ≤ -2 ^ 63 ∧ (-2 ^ 63 : Int) ≤ 2 ^ 63 - 1)
      ∧ ((-2 ^ 63 : Int) ≤ 2 ^ 63 - 1 ∧ (2 ^ 63 - 1 : Int) ≤ 2 ^ 63 - 1)
      ∧ 2 ^ 64 - 1 < 2 ^ 64
      ∧ IntType.convert Target.int32 SBInteger (-2 ^ 63) = -2 ^ 63
      ∧ (IntType.encode Target.int32 SBInteger (-2 ^ 63)
          = IntType.encode Target.int32 SBInteger (2 ^ 63 - 1) → (-2 ^ 63 : Int) = 2 ^ 63 - 1)
      ∧ -2 ^ 63 ≤ IntType.decode Target.int32 SBInteger (2 ^ 64 - 1) :=
  have h := SBInteger_represents_int64_range Target.int32 (-2 ^ 63) (2 ^ 63 - 1) (2 ^ 64 - 1)
    (by decide) (by decide) (by decide)
  ⟨by decide, by decide, by decide, h.1, h.2.2.2.1, h.2.2.2.2.1⟩

/-! ## SBIndex -/

/-- C2: `SBIndex` never holds a negative value and stores zero and positive
values unchanged.  Every `SBIndex` value `v` is `≥ 0`; a number `n` from `0`
to the greatest `SBIndex` value is itself an `SBIndex` value and assigning it
and reading it back yields `n`; a negative `k` is not an `SBIndex` value, and
assigning it leaves a non-negative number other than `k` in the object. -/
theorem SBIndex_holds_no_negative (T : Target) (v n k : Int)
    (hv : IntType.IsValue T SBIndex v)
    (hn : 0 ≤ n ∧ n ≤ IntType.maxVal T SBIndex) (hk : k < 0) :
    0 ≤ v
      ∧ IntType.IsValue T SBIndex n
      ∧ IntType.convert T SBIndex n = n
      ∧ ¬ IntType.IsValue T SBIndex k
      ∧ 0 ≤ IntType.convert T SBIndex k
      ∧ IntType.convert T SBIndex k ≠ k := by
  have hmax : IntType.maxVal T SBIndex = 2 ^ T.uintBits - 1 := rfl
  have hpos := two_pow_pos_int T.uintBits
  have hk0 : 0 ≤ IntType.convert T SBIndex k := by
    rw [convert_SBIndex]
    exact Int.emod_nonneg _ (ne_of_gt hpos)
  rw [hmax] at hn
  refine ⟨((isValue_SBIndex_iff T v).1 hv).1, (isValue_SBIndex_iff T n).2 ⟨hn.1, by omega⟩,
    ?_, ?_, hk0, ?_⟩
  · rw [convert_SBIndex]
    exact Int.emod_eq_of_lt hn.1 (by omega)
  · intro h
    have := ((isValue_SBIndex_iff T k).1 h).1
    omega
  · intro h
    omega

/-- C2 on a target with 32-bit `unsigned int`: `7` is a value, `UINT_MAX` is
stored unchanged, `-1` is not a value. -/
theorem SBIndex_holds_no_negative_witness :
    IntType.IsValue Target.int32 SBIndex 7
      ∧ ((0 : Int) ≤ 4294967295 ∧ (4294967295 : Int) ≤ IntType.maxVal Target.int32 SBIndex)
      ∧ (-1 : Int) < 0
      ∧ IntType.convert Target.int32 SBIndex 4294967295 = 4294967295
      ∧ ¬ IntType.IsValue Target.int32 SBIndex (-1)
      ∧ IntType.convert Target.int32 SBIndex (-1) ≠ -1 :=
  have hv : IntType.IsValue Target.int32 SBIndex 7 := ⟨7, by decide, by decide⟩
  have h := SBIndex_holds_no_negative Target.int32 7 4294967295 (-1) hv (by decide) (by decide)
  ⟨hv, by decide, by decide, h.2.2.1, h.2.2.2.1, h.2.2.2.2.2⟩

/-- C3: arithmetic on `SBIndex` wraps.  For `SBIndex` values `a` and `b` the
sum, difference and product are the mathematical results reduced modulo
`2 ^ w`, `w` the width of `SBIndex`; each result is again an `SBIndex` value;
for `a < b` the difference is the non-negative number `a - b + 2 ^ w`; and
`0 - 1` is the greatest `SBIndex` value. -/
theorem SBIndex_arith_wraps (T : Target) (a b : Int)
    (ha : IntType.IsValue T SBIndex a) (hb : IntType.IsValue T SBIndex b) :
    IntType.arith T SBIndex BinOp.add a b = some ((a + b) % 2 ^ IntType.bits T SBIndex)
      ∧ IntType.arith T SBIndex BinOp.sub a b = some ((a - b) % 2 ^ IntType.bits T SBIndex)
      ∧ IntType.arith T SBIndex BinOp.mul a b = some ((a * b) % 2 ^ IntType.bits T SBIndex)
      ∧ (∀ op : BinOp, ∃ r, IntType.arith T SBIndex op a b = some r
          ∧ IntType.IsValue T SBIndex r)
      ∧ (a < b → IntType.arith T SBIndex BinOp.sub a b
            = some (a - b + 2 ^ IntType.bits T SBIndex)
          ∧ 0 ≤ a - b + 2 ^ IntType.bits T SBIndex)
      ∧ IntType.arith T SBIndex BinOp.sub 0 1 = some (IntType.maxVal T SBIndex) := by
  have harith : ∀ (op : BinOp) (x y : Int),
      IntType.arith T SBIndex op x y = some (op.eval x y % 2 ^ T.uintBits) := by
    intro op x y
    have hs : IntType.isSigned SBIndex = false := rfl
    simp only [IntType.arith, hs, convert_SBIndex]
    rfl
  have hmax : IntType.maxVal T SBIndex = 2 ^ T.uintBits - 1 := rfl
  have hpos := two_pow_pos_int T.uintBits
  have ha2 := (isValue_SBIndex_iff T a).1 ha
  have hb2 := (isValue_SBIndex_iff T b).1 hb
  rw [bits_SBIndex, hmax]
  refine ⟨harith _ _ _, harith _ _ _, harith _ _ _, ?_, ?_, ?_⟩
  · intro op
    refine ⟨_, harith op a b, (isValue_SBIndex_iff T _).2 ⟨?_, ?_⟩⟩
    · exact Int.emod_nonneg _ (ne_of_gt hpos)
    · exact Int.emod_lt_of_pos _ hpos
  · intro hlt
    refine ⟨?_, by omega⟩
    rw [harith]
    congr 1
    show (a - b) % 2 ^ T.uintBits = a - b + 2 ^ T.uintBits
    rw [← @Int.add_emod_self (a - b) (2 ^ T.uintBits)]
    exact Int.emod_eq_of_lt (by omega) (by omega)
  · rw [harith]
    congr 1
    show (0 - 1) % 2 ^ T.uintBits = 2 ^ T.uintBits - 1
    rw [← @Int.add_emod_self (0 - 1) (2 ^ T.uintBits)]
    have h : (0 - 1 : Int) + 2 ^ T.uintBits = 2 ^ T.uintBits - 1 := by ring
    rw [h]
    exact Int.emod_eq_of_lt (by omega) (by omega)

/-- C3 on a target with 32-bit `unsigned int`: `3 - 5` is `2^32 - 2`. -/
theorem SBIndex_arith_wraps_witness :
    IntType.IsValue Target.int32 SBIndex 3
      ∧ IntType.IsValue Target.int32 SBIndex 5
      ∧ IntType.arith Target.int32 SBIndex BinOp.sub 3 5
          = some (3 - 5 + 2 ^ IntType.bits Target.int32 SBIndex) :=
  have h3 : IntType.IsValue Target.int32 SBIndex 3 := ⟨3, by decide, by decide⟩
  have h5 : IntType.IsValue Target.int32 SBIndex 5 := ⟨5, by decide, by decide⟩
  ⟨h3, h5, ((SBIndex_arith_wraps Target.int32 3 5 h3 h5).2.2.2.2.1 (by decide)).1⟩

/-- C4, as stated, fails: on a target whose `unsigned int` has 16 bits the
width of `SBIndex` is 16, and `65536`, a number within `0 .. 2^32 - 1`, is not
an `SBIndex` value.  So the values of `SBIndex` are not `0 .. 2^32 - 1` on
every target. -/
theorem SBIndex_width_not_fixed :
    IntType.bits Target.int16 SBIndex = 16
      ∧ ((0 : Int) ≤ 65536 ∧ (65536 : Int) ≤ 2 ^ 32 - 1)
      ∧ ¬ IntType.IsValue Target.int16 SBIndex 65536
      ∧ ¬ (∀ (T : Target) (v : Int),
            IntType.IsValue T SBIndex v ↔ 0 ≤ v ∧ v ≤ 2 ^ 32 - 1) := by
  have h16 : ¬ IntType.IsValue Target.int16 SBIndex 65536 := by
    intro h
    have h1 := ((isValue_SBIndex_iff Target.int16 65536).1 h).2
    have h2 : Target.int16.uintBits = 16 := rfl
    rw [h2] at h1
    norm_num at h1
  refine ⟨rfl, by decide, h16, ?_⟩
  intro h
  exact h16 ((h Target.int16 65536).2 (by decide))

/-- C4, amended: `SBIndex` is unsigned, its width is the target's width of
`unsigned int` (at least 16 bits), and its values are exactly
`0 .. 2 ^ w - 1` for that width `w`; on a target whose `unsigned int` has 32
bits they are exactly `0 .. 2^32 - 1`. -/
theorem SBIndex_values_by_target (T : Target) (v : Int) :
    IntType.isSigned SBIndex = false
      ∧ IntType.bits T SBIndex = T.uintBits
      ∧ 16 ≤ IntType.bits T SBIndex
      ∧ (IntType.IsValue T SBIndex v ↔ 0 ≤ v ∧ v ≤ 2 ^ T.uintBits - 1)
      ∧ (T.uintBits = 32 → (IntType.IsValue T SBIndex v ↔ 0 ≤ v ∧ v ≤ 2 ^ 32 - 1)) := by
  have hiff : IntType.IsValue T SBIndex v ↔ 0 ≤ v ∧ v ≤ 2 ^ T.uintBits - 1 := by
    rw [isValue_SBIndex_iff]
    constructor <;> rintro ⟨h0, h1⟩ <;> exact ⟨h0, by omega⟩
  refine ⟨rfl, rfl, T.uintBits_ge, hiff, ?_⟩
  intro h32
  rw [hiff, h32]

/-- C4 amended, on a target with 32-bit `unsigned int`: `2^32 - 1` is an
`SBIndex` value there. -/
theorem SBIndex_values_by_target_witness :
    Target.int32.uintBits = 32
      ∧ (IntType.IsValue Target.int32 SBIndex 4294967295
          ↔ (0 : Int) ≤ 4294967295 ∧ (4294967295 : Int) ≤ 2 ^ 32 - 1) :=
  ⟨rfl, (SBIndex_values_by_target Target.int32 4294967295).2.2.2.2 rfl⟩

/-! ## SBIndex and SBInteger -/

/-- C10: widening an index to an integer is lossless.  On a target whose
`unsigned int` has at most 63 bits, for `SBIndex` values `i` and `j`:
converting `i` to `SBInteger` yields the same non-negative number; the
conversion is injective and preserves order; converting the result back to
`SBIndex` yields `i`.  The converse fails: `-1` is an `SBInteger` value that
does not come back from `SBIndex` as `-1`, and where `unsigned int` has at most
32 bits neither does `2^32`. -/
theorem SBIndex_widens_losslessly (T : Target) (i j : Int) (hw : T.uintBits ≤ 63)
    (hi : IntType.IsValue T SBIndex i) (hj : IntType.IsValue T SBIndex j) :
    (IntType.convert T SBInteger i = i ∧ 0 ≤ IntType.convert T SBInteger i)
      ∧ (IntType.convert T SBInteger i = IntType.convert T SBInteger j → i = j)
      ∧ (i < j ↔ IntType.convert T SBInteger i < IntType.convert T SBInteger j)
      ∧ IntType.convert T SBIndex (IntType.convert T SBInteger i) = i
      ∧ (IntType.IsValue T SBInteger (-1)
          ∧ IntType.convert T SBInteger (IntType.convert T SBIndex (-1)) ≠ -1)
      ∧ (T.uintBits ≤ 32 → IntType.IsValue T SBInteger (2 ^ 32)
          ∧ IntType.convert T SBInteger (IntType.convert T SBIndex (2 ^ 32)) ≠ 2 ^ 32) := by
  have hpos := two_pow_pos_int T.uintBits
  have hle : (2 : Int) ^ T.uintBits ≤ 2 ^ 63 := pow_le_pow_right₀ (by norm_num) hw
  norm_num at hle
  have hi2 := (isValue_SBIndex_iff T i).1 hi
  have hj2 := (isValue_SBIndex_iff T j).1 hj
  have hwide : ∀ x : Int, 0 ≤ x → x < 2 ^ T.uintBits → IntType.convert T SBInteger x = x := by
    intro x h0 h1
    rw [convert_SBInteger]
    norm_num
    omega
  have hci := hwide i hi2.1 hi2.2
  have hcj := hwide j hj2.1 hj2.2
  rw [hci, hcj]
  refine ⟨⟨rfl, hi2.1⟩, fun h => h, Iff.rfl, ?_, ⟨?_, ?_⟩, ?_⟩
  · rw [convert_SBIndex]
    exact Int.emod_eq_of_lt hi2.1 hi2.2
  · exact (isValue_SBInteger_iff T (-1)).2 (by norm_num)
  · have h1 : IntType.convert T SBIndex (-1) = 2 ^ T.uintBits - 1 := by
      rw [convert_SBIndex, ← @Int.add_emod_self (-1) (2 ^ T.uintBits)]
      have h : (-1 : Int) + 2 ^ T.uintBits = 2 ^ T.uintBits - 1 := by ring
      rw [h]
      exact Int.emod_eq_of_lt (by omega) (by omega)
    rw [h1, hwide _ (by omega) (by omega)]
    omega
  · intro h32
    refine ⟨(isValue_SBInteger_iff T (2 ^ 32)).2 (by norm_num), ?_⟩
    have h1 : IntType.convert T SBIndex (2 ^ 32) = 0 := by
      rw [convert_SBIndex]
      exact Int.emod_eq_zero_of_dvd (pow_dvd_pow 2 h32)
    rw [h1, hwide 0 (le_refl 0) hpos]
    norm_num

/-- C10 on a target with 32-bit `unsigned int`: `UINT_MAX` widens to itself and
comes back, `-1` and `2^32` do not come back. -/
theorem SBIndex_widens_losslessly_witness :
    Target.int32.uintBits ≤ 63
      ∧ IntType.IsValue Target.int32 SBIndex 4294967295
      ∧ IntType.IsValue Target.int32 SBIndex 0
      ∧ IntType.convert Target.int32 SBInteger 4294967295 = 4294967295
      ∧ IntType.convert Target.int32 SBIndex
          (IntType.convert Target.int32 SBInteger 4294967295) = 4294967295
      ∧ IntType.convert Target.int32 SBInteger (IntType.convert Target.int32 SBIndex (-1)) ≠ -1
      ∧ IntType.convert Target.int32 SBInteger
          (IntType.convert Target.int32 SBIndex (2 ^ 32)) ≠ 2 ^ 32 :=
  have hmax : IntType.IsValue Target.int32 SBIndex 4294967295 :=
    ⟨4294967295, by decide, by decide⟩
  have h0 : IntType.IsValue Target.int32 SBIndex 0 := ⟨0, by decide, by decide⟩
  have h := SBIndex_widens_losslessly Target.int32 4294967295 0 (by decide) hmax h0
  ⟨by decide, hmax, h0, h.1.1, h.2.2.2.1, h.2.2.2.2.1.2, (h.2.2.2.2.2 (by decide)).2⟩


/-! ## Lemmas on the storage of floating data -/

/-- A model with at least the precision and the exponent range of another
represents every number the other represents. -/
theorem represents_mono (F G : FloatModel) (hp : F.mantDig ≤ G.mantDig)
    (hmin : G.minExp ≤ F.minExp) (hmax : F.maxExp ≤ G.maxExp) (x : ℚ)
    (h : F.Represents x) : G.Represents x := by
  obtain ⟨M, hM, e, he, hx⟩ := h
  rw [Finset.mem_range] at hM
  rw [Finset.mem_Icc] at he
  have hk : (2 : ℚ) ^ (e - (F.mantDig : ℤ))
      = ((2 ^ (G.mantDig - F.mantDig) : ℕ) : ℚ) * 2 ^ (e - (G.mantDig : ℤ)) := by
    have h1 : e - (F.mantDig : ℤ) = ((G.mantDig - F.mantDig : ℕ) : ℤ) + (e - (G.mantDig : ℤ)) := by
      omega
    rw [h1, zpow_add₀ (by norm_num : (2 : ℚ) ≠ 0), zpow_natCast]
    push_cast
    rfl
  have hval : (M : ℚ) * 2 ^ (e - (F.mantDig : ℤ))
      = ((M * 2 ^ (G.mantDig - F.mantDig) : ℕ) : ℚ) * 2 ^ (e - (G.mantDig : ℤ)) := by
    rw [hk]
    push_cast
    ring
  refine ⟨M * 2 ^ (G.mantDig - F.mantDig), ?_, e, ?_, ?_⟩
  · rw [Finset.mem_range]
    calc M * 2 ^ (G.mantDig - F.mantDig)
        < 2 ^ F.mantDig * 2 ^ (G.mantDig - F.mantDig) :=
          Nat.mul_lt_mul_of_pos_right hM (by positivity)
      _ = 2 ^ G.mantDig := by
          rw [← pow_add]
          congr 1
          omega
  · rw [Finset.mem_Icc]
    exact ⟨le_trans hmin he.1, le_trans he.2 hmax⟩
  · rw [← hval]
    exact hx

/-- The value of a finite double datum is a number the model of `double`
represents. -/
theorem binary64_value_represents (d : Datum) (hd : Interchange.binary64.WellFormed d)
    (x : ℚ) (hx : Interchange.binary64.value d = some x) :
    Interchange.binary64.model.Represents x := by
  obtain ⟨s, e, f⟩ := d
  simp only [Interchange.WellFormed, Interchange.binary64] at hd
  norm_num at hd
  obtain ⟨he, hf⟩ := hd
  have hm : Interchange.binary64.model = ⟨53, -1021, 1024⟩ := by decide
  have key : ∀ (M : ℕ) (q : ℤ), M < 2 ^ 53 → -1021 ≤ q → q ≤ 1024 →
      some ((if s = true then -1 else 1) * ((M : ℚ) * 2 ^ (q - 53))) = some x →
      Interchange.binary64.model.Represents x := by
    intro M q hM h1 h2 hxy
    have hxy' := Option.some.inj hxy
    rw [hm]
    refine ⟨M, Finset.mem_range.2 hM, q, Finset.mem_Icc.2 ⟨h1, h2⟩, ?_⟩
    cases s <;> simp at hxy'
    · left
      exact hxy'.symm
    · right
      exact hxy'.symm
  unfold Interchange.value at hx
  have h1 : (2 : ℕ) ^ Interchange.binary64.expBits - 1 = 2047 := by decide
  have h2 : Interchange.binary64.bias = 1023 := by decide
  have h3 : Interchange.binary64.fracBits = 52 := rfl
  rw [h1, h2, h3] at hx
  simp only at hx
  by_cases h2047 : e = 2047
  · rw [if_pos h2047] at hx
    cases hx
  rw [if_neg h2047] at hx
  by_cases h0 : e = 0
  · rw [if_pos h0] at hx
    refine key f (-1021) (by omega) (by norm_num) (by norm_num) ?_
    rw [← hx]
    norm_num
  · rw [if_neg h0] at hx
    refine key (2 ^ 52 + f) ((e : ℤ) - 1022) (by omega) (by omega) (by omega) ?_
    rw [← hx]
    have h4 : (e : ℤ) - 1022 - 53 = (e : ℤ) - 1023 - ((52 : ℕ) : ℤ) := by
      push_cast
      ring
    rw [h4]
    push_cast
    rfl

/-! ## SBRealFunc -/

/-- C6, as stated, fails: `SBRealFunc` is not a pointer to function, and it is
not an object type, so a variable or a structure member declared with the type
`SBRealFunc` itself declares no object that could store a value. -/
theorem SBRealFunc_not_function_pointer :
    SBRealFunc.isFunctionPointer = false
      ∧ SBRealFunc.isObjectType = false
      ∧ CType.declared DeclKind.var SBRealFunc = none
      ∧ CType.declared DeclKind.member SBRealFunc = none
      ∧ ¬ (SBRealFunc.isFunctionPointer = true ∧ SBRealFunc.isObjectType = true) := by
  decide

/-- C6, amended: `SBRealFunc` is an alias of the function type
`double (double)`, and functions of that signature have the type `SBRealFunc`.
The pointer type `SBRealFunc*` is a pointer to function and an object type: a
variable or a structure member can be declared with it, and a parameter
declared `SBRealFunc` has the type `SBRealFunc*`.  A call through
`SBRealFunc*` with one double argument has the type double. -/
theorem SBRealFunc_is_function_type (f : RealFunction) :
    (SBRealFunc.isFunctionType = true ∧ f.type = SBRealFunc)
      ∧ ((CType.pointer SBRealFunc).isFunctionPointer = true
          ∧ (CType.pointer SBRealFunc).isObjectType = true)
      ∧ CType.declared DeclKind.var (CType.pointer SBRealFunc)
          = some (CType.pointer SBRealFunc)
      ∧ CType.declared DeclKind.member (CType.pointer SBRealFunc)
          = some (CType.pointer SBRealFunc)
      ∧ CType.declared DeclKind.param SBRealFunc = some (CType.pointer SBRealFunc)
      ∧ CType.callResult (CType.pointer SBRealFunc) (CType.arith (ArithType.real RealType.double))
          = some (CType.arith (ArithType.real RealType.double)) := by
  exact ⟨⟨rfl, rfl⟩, ⟨rfl, rfl⟩, rfl, rfl, rfl, rfl⟩

/-! ## SBReal, SBShortReal, SBLongReal -/

/-- C9: `SBLongReal` is at least as precise as `SBReal`.  On every target the
precision of `SBLongReal` is at least that of `SBReal`; every `SBReal` value
`v` is an `SBLongReal` value; converting `v` to `SBLongReal` leaves it
unchanged, and converting the result back to `SBReal` yields `v`; and the value
`x` of every finite double datum `d` is an `SBLongReal` value. -/
theorem SBLongReal_contains_SBReal (R : RealTarget) (v : RealValue) (d : Datum) (x : ℚ)
    (hv : RealType.IsValue R SBReal v)
    (hd : Interchange.binary64.WellFormed d) (hx : Interchange.binary64.value d = some x) :
    (RealType.model R SBReal).mantDig ≤ (RealType.model R SBLongReal).mantDig
      ∧ RealType.IsValue R SBLongReal v
      ∧ RealType.convert R SBLongReal v = v
      ∧ RealType.convert R SBReal (RealType.convert R SBLongReal v) = v
      ∧ RealType.IsValue R SBLongReal (RealValue.finite x) := by
  have hm : Interchange.binary64.model = ⟨53, -1021, 1024⟩ := by decide
  have hmono : ∀ y : ℚ, Interchange.binary64.model.Represents y → R.longDouble.Represents y := by
    intro y hy
    refine represents_mono _ _ ?_ ?_ ?_ y hy
    · rw [hm]
      exact R.mantDig_ge
    · rw [hm]
      exact R.minExp_le
    · rw [hm]
      exact R.maxExp_ge
  have hlong : RealType.IsValue R SBLongReal v := by
    cases v with
    | finite y => exact hmono y hv
    | negZero => exact trivial
    | infinite s => exact trivial
    | nan => exact trivial
  have hc1 : RealType.convert R SBLongReal v = v := if_pos hlong
  have hc2 : RealType.convert R SBReal v = v := if_pos hv
  refine ⟨?_, hlong, hc1, ?_, hmono x (binary64_value_represents d hd x hx)⟩
  · show Interchange.binary64.model.mantDig ≤ R.longDouble.mantDig
    rw [hm]
    exact R.mantDig_ge
  · rw [hc1, hc2]

/-- C9 on a target whose `long double` is the x87 extended format, at `3.5`. -/
theorem SBLongReal_contains_SBReal_witness :
    RealType.IsValue RealTarget.x87 SBReal (RealValue.finite (7 / 2))
      ∧ Interchange.binary64.WellFormed Datum.threeAndHalf
      ∧ Interchange.binary64.value Datum.threeAndHalf = some (7 / 2)
      ∧ RealType.IsValue RealTarget.x87 SBLongReal (RealValue.finite (7 / 2))
      ∧ RealType.convert RealTarget.x87 SBReal
          (RealType.convert RealTarget.x87 SBLongReal (RealValue.finite (7 / 2)))
          = RealValue.finite (7 / 2) :=
  have hx : Interchange.binary64.value Datum.threeAndHalf = some (7 / 2) := by
    norm_num [Interchange.value, Datum.threeAndHalf, Interchange.binary64, Interchange.bias]
  have hv : RealType.IsValue RealTarget.x87 SBReal (RealValue.finite (7 / 2)) :=
    binary64_value_represents Datum.threeAndHalf (by decide) (7 / 2) hx
  have h := SBLongReal_contains_SBReal RealTarget.x87 (RealValue.finite (7 / 2))
    Datum.threeAndHalf (7 / 2) hv (by decide) hx
  ⟨hv, by decide, hx, h.2.1, h.2.2.2.1⟩

end SBBasis
